import Mathlib

/-!
Verification of the risk_system repository: a shallow embedding of the
risk-calculation engine (interest-rate curves, FX spots, portfolio ledgers,
DV01 computation) together with theorems settling the specification claims.

Modelling conventions:
- C++ `double` values are modelled as exact rationals up to the final
  discount-factor exponent, with `Real.exp` applied at the boundary; IEEE
  rounding is not modelled, and division is the total (mathematical)
  division of the field, with x / 0 = 0.
- `std::map<int, double>` is modelled as an association list of pairs with
  strictly ascending keys (the predicate `InterestRates.Sorted` below is the
  representation invariant maintained by std::map).
- `std::map::upper_bound` plus `std::prev` on a sorted list is realised by
  the structural recursion `dfExpAux`: it walks the list keeping the last
  entry whose key is at most t, exactly the bracketing performed by the
  source.
- Undefined behaviour (dereferencing the end iterator on an empty curve) and
  thrown exceptions (`std::unordered_map::at` on a missing key,
  `std::optional::value` on an empty optional) are modelled by the explicit
  `QRes.crash` outcome; a returned empty optional is `QRes.noResult`.
- The `finally` idiom of the source (scope-bound release of a bump) is
  modelled by the explicit restoring operations `unbump_tenor` and
  `unbump_curve`, applied at the point where the C++ scope exits.
-/

/-- The G5 currency set, in declaration order as in the source. -/
inductive Currency where
  | EUR
  | GBP
  | USD
  | CAD
  | JPY
deriving DecidableEq

/-- One interest-rate curve: tenor (days) to annualized rate, the embedding
of the `std::map<int, double> rates` member of `InterestRates`. -/
structure InterestRates where
  rates : List (Int × ℚ)
deriving DecidableEq

/-- Strictly ascending keys: the representation invariant of std::map. -/
def sortedRates : List (Int × ℚ) → Bool
  | [] => true
  | [_] => true
  | p :: q :: l => decide (p.1 < q.1) && sortedRates (q :: l)

/-- A curve is well formed when its key list is strictly ascending. -/
def InterestRates.Sorted (c : InterestRates) : Prop :=
  sortedRates c.rates = true

/-- `InterestRates::check_tenor`: whether an exact rate point exists. -/
def InterestRates.check_tenor (c : InterestRates) (tenor : Int) : Bool :=
  c.rates.any (fun p => p.1 == tenor)

/-- `InterestRates::get_tenors`: the stored tenor keys. -/
def InterestRates.get_tenors (c : InterestRates) : List Int :=
  c.rates.map Prod.fst

/-- Ordered insert-or-assign on the key-sorted association list, the
behaviour of `rates.insert_or_assign(tenor, rate)`. -/
def insertRate : List (Int × ℚ) → Int → ℚ → List (Int × ℚ)
  | [], tenor, rate => [(tenor, rate)]
  | p :: ps, tenor, rate =>
      if tenor < p.1 then (tenor, rate) :: p :: ps
      else if tenor = p.1 then (tenor, rate) :: ps
      else p :: insertRate ps tenor rate

/-- `InterestRates::add_rate`: overwrites by default. -/
def InterestRates.add_rate (c : InterestRates) (tenor : Int) (rate : ℚ) :
    InterestRates :=
  ⟨insertRate c.rates tenor rate⟩

/-- The linear spot interpolation
`(r_left * (t_right - t) + r_right * (t - t_left)) / (t_right - t_left)`
from `InterestRates::get_discount_factor` (integer subtractions are cast to
the rationals, which agrees with casting after subtracting). -/
def linInterp (tl : Int) (rl : ℚ) (tr : Int) (rr : ℚ) (t : Int) : ℚ :=
  (rl * ((tr : ℚ) - (t : ℚ)) + rr * ((t : ℚ) - (tl : ℚ))) /
    ((tr : ℚ) - (tl : ℚ))

/-- The exponent `-r_eff * t / 360` of the discount factor for a bracketing
pair, as computed by the source. -/
def effExp (tl : Int) (rl : ℚ) (tr : Int) (rr : ℚ) (t : Int) : ℚ :=
  -(linInterp tl rl tr rr t) * (t : ℚ) / 360

/-- Walk of the rate map mirroring `rates.upper_bound(t)` with `std::prev`:
`tl`, `rl` hold the last entry with key at most `t`; on reaching an entry
with key above `t` the bracketing pair is used, and past the end the rate is
held flat with the artificial right tenor `t_left + 1`. -/
def dfExpAux : Int → ℚ → List (Int × ℚ) → Int → ℚ
  | tl, rl, [], t => effExp tl rl (tl + 1) rl t
  | tl, rl, (tr, rr) :: rest, t =>
      if t < tr then effExp tl rl tr rr t else dfExpAux tr rr rest t

/-- The discount-factor exponent computed by
`InterestRates::get_discount_factor`.  `none` is the empty-curve case, in
which the source dereferences the end iterator (undefined behaviour).  When
`t` is below the smallest stored tenor (`it == rates.begin()`) the left
endpoint is the implicit `(0, 0)` initialisation of the source. -/
def InterestRates.dfExponent? (c : InterestRates) (t : Int) : Option ℚ :=
  match c.rates with
  | [] => none
  | (t0, r0) :: rest =>
      some (if t < t0 then effExp 0 0 t0 r0 t else dfExpAux t0 r0 rest t)

/-- `InterestRates::get_discount_factor`: `exp(-r_eff * t / 360)`. -/
noncomputable def InterestRates.get_discount_factor? (c : InterestRates)
    (t : Int) : Option ℝ :=
  (c.dfExponent? t).map (fun q => Real.exp (q : ℝ))

/-- `InterestRates::bump_tenor`: `rates.at(tenor) += bump_amount`.  The
source requires the tenor to exist (`at` would otherwise throw). -/
def InterestRates.bump_tenor (c : InterestRates) (tenor : Int) (amount : ℚ) :
    InterestRates :=
  ⟨c.rates.map (fun p => if p.1 = tenor then (p.1, p.2 + amount) else p)⟩

/-- The release action returned by `bump_tenor`: subtracts the same amount
at the same tenor when the scope exits. -/
def InterestRates.unbump_tenor (c : InterestRates) (tenor : Int)
    (amount : ℚ) : InterestRates :=
  ⟨c.rates.map (fun p => if p.1 = tenor then (p.1, p.2 - amount) else p)⟩

/-- `InterestRates::bump_curve`: adds the amount to every stored rate. -/
def InterestRates.bump_curve (c : InterestRates) (amount : ℚ) :
    InterestRates :=
  ⟨c.rates.map (fun p => (p.1, p.2 + amount))⟩

/-- The release action returned by `bump_curve`. -/
def InterestRates.unbump_curve (c : InterestRates) (amount : ℚ) :
    InterestRates :=
  ⟨c.rates.map (fun p => (p.1, p.2 - amount))⟩

/-- `FXSpot`: one spot rate against USD. -/
structure FXSpot where
  spot : ℚ
deriving DecidableEq

/-- `FXSpot::operator/`: the cross rate `spot / FX_term.get_spot()`. -/
def FXSpot.div (a b : FXSpot) : ℚ :=
  a.spot / b.spot

/-- `FXSpot::set_spot`. -/
def FXSpot.set_spot (_a : FXSpot) (s : ℚ) : FXSpot :=
  ⟨s⟩

/-- `DateNotionals`: maturity date to aggregated notional, plus the
valuation delta.  `std::unordered_map<int, int>` is modelled as an
association list with distinct keys, in insertion order. -/
structure DateNotionals where
  date_notionals : List (Int × Int)
  delta : Int
deriving DecidableEq

/-- `DateNotionals::get_maturities`: the stored maturity dates. -/
def DateNotionals.get_maturities (dn : DateNotionals) : List Int :=
  dn.date_notionals.map Prod.fst

/-- `DateNotionals::add_trade`: `date_notionals[date] += notional`, which
accumulates into an existing bucket or creates one holding `0 + notional`. -/
def DateNotionals.add_trade (dn : DateNotionals) (date notional : Int) :
    DateNotionals :=
  if dn.date_notionals.any (fun p => p.1 == date) then
    { dn with
      date_notionals := dn.date_notionals.map
        (fun p => if p.1 = date then (p.1, p.2 + notional) else p) }
  else
    { dn with date_notionals := dn.date_notionals ++ [(date, notional)] }

/-- `DateNotionals::set_delta`. -/
def DateNotionals.set_delta (dn : DateNotionals) (d : Int) : DateNotionals :=
  { dn with delta := d }

/-- Observation used to state the aggregation property: the notional stored
for a given date, if any. -/
def DateNotionals.notionalAt (dn : DateNotionals) (date : Int) : Option Int :=
  (dn.date_notionals.find? (fun p => p.1 == date)).map Prod.snd

/-- `DateNotionals::get_book_value`: transform each (date, notional) pair to
`notional * discount_factors(date - delta)` and reduce, starting from 0. -/
def DateNotionals.get_book_value (dn : DateNotionals)
    (discount_factors : Int → ℝ) : ℝ :=
  (dn.date_notionals.map
    (fun p => (p.2 : ℝ) * discount_factors (p.1 - dn.delta))).foldl
    (fun a b => a + b) 0

/-- Present-value sum against an Option-valued discount function: the failure of
any single discount-factor evaluation (the undefined behaviour of an empty
curve) poisons the whole book value. -/
def sumPV? (delta : Int) (df : Int → Option ℝ) :
    List (Int × Int) → Option ℝ
  | [] => some 0
  | p :: ps =>
      match df (p.1 - delta), sumPV? delta df ps with
      | some d, some rest => some ((p.2 : ℝ) * d + rest)
      | _, _ => none

/-- Outcome of an engine query: a value, the explicit empty optional, or a
crash (an escaped exception or undefined behaviour). -/
inductive QRes where
  | ok : ℝ → QRes
  | noResult : QRes
  | crash : QRes

/-- The claim predicate: the query returned a strictly negative value. -/
def QRes.isNeg : QRes → Prop
  | .ok v => v < 0
  | .noResult => False
  | .crash => False

/-- The engine: per-currency curves, spots and ledgers plus the valuation
delta, the state of `RiskManagementSystem<G5>`. -/
structure RiskManagementSystem where
  currency_rates : Currency → Option InterestRates
  currency_spot : Currency → Option FXSpot
  currency_notionals : Currency → Option DateNotionals
  delta : Int

/-- The bump size `EPS = 1e-4` of the source. -/
def EPS : ℚ := 1 / 10000

/-- `check_rates`: the currency has a curve. -/
def RiskManagementSystem.check_rates (s : RiskManagementSystem)
    (ccy : Currency) : Bool :=
  (s.currency_rates ccy).isSome

/-- `check_fx`: the currency has a spot entry. -/
def RiskManagementSystem.check_fx (s : RiskManagementSystem)
    (ccy : Currency) : Bool :=
  (s.currency_spot ccy).isSome

/-- `check_tenor_val`: rejects negative tenors. -/
def check_tenor_val (tenor : Int) : Bool :=
  decide (0 ≤ tenor)

/-- `check_tenor_rate`: the currency has a curve with an exact rate point at
the tenor. -/
def RiskManagementSystem.check_tenor_rate (s : RiskManagementSystem)
    (ccy : Currency) (tenor : Int) : Bool :=
  match s.currency_rates ccy with
  | none => false
  | some c => c.check_tenor tenor

/-- `check_maturities`: the currency has a ledger. -/
def RiskManagementSystem.check_maturities (s : RiskManagementSystem)
    (ccy : Currency) : Bool :=
  (s.currency_notionals ccy).isSome

/-- `RiskManagementSystem::get_fx_spot`: `spot(base) / spot(term)` when both
spot entries exist, otherwise the empty optional. -/
def RiskManagementSystem.get_fx_spot (s : RiskManagementSystem)
    (ccy_pair : Currency × Currency) : Option ℚ :=
  match s.currency_spot ccy_pair.1, s.currency_spot ccy_pair.2 with
  | some b, some t => some (b.div t)
  | _, _ => none

/-- `RiskManagementSystem::get_discount_factor`: empty optional on a missing
curve or negative tenor, otherwise the curve-level interpolation, which is a
crash on an empty curve. -/
noncomputable def RiskManagementSystem.get_discount_factor
    (s : RiskManagementSystem) (ccy : Currency) (tenor : Int) : QRes :=
  if !(s.check_rates ccy && check_tenor_val tenor) then .noResult
  else
    match s.currency_rates ccy with
    | none => .noResult
    | some c =>
        match c.dfExponent? tenor with
        | none => .crash
        | some q => .ok (Real.exp (q : ℝ))

/-- `RiskManagementSystem::get_DV01(ccy, tenor)` (single-tenor overload).
After the guards the source reads `currency_notionals.at(ccy)` without a
containment check, which throws on a missing ledger; each bumped valuation
runs in its own scope whose exit releases the bump. -/
noncomputable def RiskManagementSystem.get_DV01_tenor
    (s : RiskManagementSystem) (ccy : Currency) (tenor : Int) : QRes :=
  if !(s.check_tenor_rate ccy tenor && s.check_fx ccy) then .noResult
  else
    match s.currency_rates ccy, s.currency_notionals ccy with
    | some rates, some trades =>
        let bumpedUp := rates.bump_tenor tenor EPS
        let vUp := sumPV? trades.delta bumpedUp.get_discount_factor?
          trades.date_notionals
        let restored := bumpedUp.unbump_tenor tenor EPS
        let bumpedDown := restored.bump_tenor tenor (-EPS)
        let vDown := sumPV? trades.delta bumpedDown.get_discount_factor?
          trades.date_notionals
        match s.get_fx_spot (Currency.USD, ccy), vUp, vDown with
        | some fx, some vu, some vd => .ok ((fx : ℝ) * -(vu - vd) / 2)
        | _, _, _ => .crash
    | _, _ => .crash

/-- `RiskManagementSystem::get_DV01(ccy)` (whole-curve overload). -/
noncomputable def RiskManagementSystem.get_DV01_curve
    (s : RiskManagementSystem) (ccy : Currency) : QRes :=
  if !(s.check_rates ccy && s.check_fx ccy) then .noResult
  else
    match s.currency_rates ccy, s.currency_notionals ccy with
    | some rates, some trades =>
        let bumpedUp := rates.bump_curve EPS
        let vUp := sumPV? trades.delta bumpedUp.get_discount_factor?
          trades.date_notionals
        let restored := bumpedUp.unbump_curve EPS
        let bumpedDown := restored.bump_curve (-EPS)
        let vDown := sumPV? trades.delta bumpedDown.get_discount_factor?
          trades.date_notionals
        match s.get_fx_spot (Currency.USD, ccy), vUp, vDown with
        | some fx, some vu, some vd => .ok ((fx : ℝ) * -(vu - vd) / 2)
        | _, _, _ => .crash
    | _, _ => .crash

/-- The freshly constructed engine: no curves, no ledgers, and the USD spot
default-initialised to 1, as in the member initialiser of the source. -/
def initRMS : RiskManagementSystem where
  currency_rates := fun _ => none
  currency_spot := fun c => if c = Currency.USD then some ⟨1⟩ else none
  currency_notionals := fun _ => none
  delta := 42940

/-- `parse_rate` at the observation level: a non-negative converted tenor is
inserted into the curve of the currency, default-constructing the curve on
its first data point; a negative tenor is skipped. -/
def applyRate (s : RiskManagementSystem) (ccy : Currency) (tenor : Int)
    (rate : ℚ) : RiskManagementSystem :=
  if tenor < 0 then s
  else
    { s with
      currency_rates := fun c =>
        if c = ccy then
          some (((s.currency_rates ccy).getD ⟨[]⟩).add_rate tenor rate)
        else s.currency_rates c }

/-- `parse_fx` at the observation level: default-construct the spot entry if
necessary and overwrite it. -/
def applyFX (s : RiskManagementSystem) (ccy : Currency) (spot : ℚ) :
    RiskManagementSystem :=
  { s with
    currency_spot := fun c =>
      if c = ccy then
        some (((s.currency_spot ccy).getD ⟨1⟩).set_spot spot)
      else s.currency_spot c }

/-- `parse_trade` at the observation level: a trade whose effective tenor is
negative is skipped; otherwise the ledger is created with the engine delta
if absent and the trade is accumulated. -/
def applyTrade (s : RiskManagementSystem) (ccy : Currency)
    (date notional : Int) : RiskManagementSystem :=
  if date - s.delta < 0 then s
  else
    { s with
      currency_notionals := fun c =>
        if c = ccy then
          some (match s.currency_notionals ccy with
            | none => (DateNotionals.set_delta ⟨[], 0⟩ s.delta).add_trade
                date notional
            | some dn => dn.add_trade date notional)
        else s.currency_notionals c }

/-- The engine states reachable through construction and ingestion. -/
inductive Reachable : RiskManagementSystem → Prop
  | init : Reachable initRMS
  | rate {s : RiskManagementSystem} (ccy : Currency) (tenor : Int) (r : ℚ) :
      Reachable s → Reachable (applyRate s ccy tenor r)
  | fx {s : RiskManagementSystem} (ccy : Currency) (q : ℚ) :
      Reachable s → Reachable (applyFX s ccy q)
  | trade {s : RiskManagementSystem} (ccy : Currency) (date notional : Int) :
      Reachable s → Reachable (applyTrade s ccy date notional)

/-! ## Generic list helpers -/

lemma list_map_eq_self_of_mem {α : Type} {f : α → α} {l : List α}
    (h : ∀ a ∈ l, f a = a) : l.map f = l := by
  induction l with
  | nil => rfl
  | cons a l ih =>
      simp only [List.map_cons, h a (List.mem_cons_self a l)]
      rw [ih (fun b hb => h b (List.mem_cons_of_mem a hb))]

lemma list_map_eq_self {α : Type} {f : α → α} (h : ∀ a, f a = a)
    (l : List α) : l.map f = l :=
  list_map_eq_self_of_mem (fun a _ => h a)

lemma list_any_congr {α : Type} {p q : α → Bool} {l : List α}
    (h : ∀ a ∈ l, p a = q a) : l.any p = l.any q := by
  induction l with
  | nil => rfl
  | cons a l ih =>
      simp only [List.any_cons, h a (List.mem_cons_self a l)]
      rw [ih (fun b hb => h b (List.mem_cons_of_mem a hb))]

lemma list_find_skip {α : Type} {l1 l2 : List α} {p : α → Bool}
    (h : ∀ x ∈ l1, p x = false) :
    List.find? p (l1 ++ l2) = List.find? p l2 := by
  induction l1 with
  | nil => rfl
  | cons a l ih =>
      rw [List.cons_append, List.find?]
      rw [h a (List.mem_cons_self a l)]
      exact ih (fun b hb => h b (List.mem_cons_of_mem a hb))

lemma foldl_add_eq_sum (l : List ℝ) : ∀ a : ℝ,
    l.foldl (fun x y => x + y) a = a + l.sum := by
  induction l with
  | nil => intro a; simp
  | cons b l ih => intro a; simp only [List.foldl_cons, List.sum_cons, ih, add_assoc]

/-! ## Restoration of a bumped curve -/

lemma InterestRates.bump_unbump_tenor (c : InterestRates) (tenor : Int)
    (amount : ℚ) :
    (c.bump_tenor tenor amount).unbump_tenor tenor amount = c := by
  cases c with
  | mk rates =>
      simp only [bump_tenor, unbump_tenor, List.map_map, mk.injEq]
      refine list_map_eq_self (fun p => ?_) rates
      obtain ⟨a, b⟩ := p
      by_cases h : a = tenor <;> simp [Function.comp, h]

lemma InterestRates.bump_unbump_curve (c : InterestRates) (amount : ℚ) :
    (c.bump_curve amount).unbump_curve amount = c := by
  cases c with
  | mk rates =>
      simp only [bump_curve, unbump_curve, List.map_map, mk.injEq]
      exact list_map_eq_self (fun p => by simp [Function.comp]) rates

/-- C2: for every curve, tenor, bumped tenor and bump amount, the discount
factor at any tenor is unchanged by a complete bump_tenor/release cycle and
by a complete bump_curve/release cycle, because the release subtracts
exactly the amount the bump added (equality is exact in the rational model
of the arithmetic). -/
theorem claim_C2_bump_release_neutral (c : InterestRates) (tenor : Int)
    (amount : ℚ) (h : c.check_tenor tenor = true) :
    (((c.bump_tenor tenor amount).unbump_tenor tenor amount = c) ∧
      ∀ t : Int,
        ((c.bump_tenor tenor amount).unbump_tenor tenor
            amount).get_discount_factor? t = c.get_discount_factor? t) ∧
    (((c.bump_curve amount).unbump_curve amount = c) ∧
      ∀ t : Int,
        ((c.bump_curve amount).unbump_curve
            amount).get_discount_factor? t = c.get_discount_factor? t) := by
  refine ⟨⟨c.bump_unbump_tenor tenor amount, fun t => ?_⟩,
    ⟨c.bump_unbump_curve amount, fun t => ?_⟩⟩
  · rw [c.bump_unbump_tenor tenor amount]
  · rw [c.bump_unbump_curve amount]

/-- Concrete curve used by several witnesses: points (30, 0.02), (60, 0.025). -/
def curve2 : InterestRates :=
  ⟨[(30, 1 / 50), (60, 1 / 40)]⟩

/-- Witness for C2 at the curve {(30, 0.02), (60, 0.025)}, tenor 30. -/
theorem claim_C2_witness :
    curve2.check_tenor 30 = true ∧
    ((((curve2.bump_tenor 30 EPS).unbump_tenor 30 EPS = curve2) ∧
      ∀ t : Int,
        ((curve2.bump_tenor 30 EPS).unbump_tenor
            30 EPS).get_discount_factor? t = curve2.get_discount_factor? t) ∧
    (((curve2.bump_curve EPS).unbump_curve EPS = curve2) ∧
      ∀ t : Int,
        ((curve2.bump_curve EPS).unbump_curve
            EPS).get_discount_factor? t = curve2.get_discount_factor? t)) :=
  ⟨by decide, claim_C2_bump_release_neutral curve2 30 EPS (by decide)⟩

/-- C10: bump_tenor, bump_curve and their scoped releases never change the
set of stored tenors; get_tenors and check_tenor observe the same keys
before, during and after a bump scope. -/
theorem claim_C10_bumps_preserve_tenors (c : InterestRates) (tenor : Int)
    (amount : ℚ) (h : c.check_tenor tenor = true) :
    (c.bump_tenor tenor amount).get_tenors = c.get_tenors ∧
    ((c.bump_tenor tenor amount).unbump_tenor tenor amount).get_tenors =
      c.get_tenors ∧
    (c.bump_curve amount).get_tenors = c.get_tenors ∧
    ((c.bump_curve amount).unbump_curve amount).get_tenors = c.get_tenors ∧
    (∀ t : Int, (c.bump_tenor tenor amount).check_tenor t = c.check_tenor t) ∧
    (∀ t : Int, (c.bump_curve amount).check_tenor t = c.check_tenor t) := by
  have hfst : ∀ p : Int × ℚ,
      ((if p.1 = tenor then (p.1, p.2 + amount) else p) : Int × ℚ).1 = p.1 := by
    intro p; by_cases hp : p.1 = tenor <;> simp [hp]
  refine ⟨?_, ?_, ?_, ?_, ?_, ?_⟩
  · simp only [InterestRates.get_tenors, InterestRates.bump_tenor,
      List.map_map]
    exact List.map_congr_left (fun p _ => hfst p)
  · rw [c.bump_unbump_tenor tenor amount]
  · simp only [InterestRates.get_tenors, InterestRates.bump_curve,
      List.map_map]
    exact List.map_congr_left (fun p _ => rfl)
  · rw [c.bump_unbump_curve amount]
  · intro t
    simp only [InterestRates.check_tenor, InterestRates.bump_tenor,
      List.any_map]
    exact list_any_congr (fun p _ => by rw [Function.comp_apply, hfst p])
  · intro t
    simp only [InterestRates.check_tenor, InterestRates.bump_curve,
      List.any_map]
    exact list_any_congr (fun p _ => rfl)

/-- Witness for C10 at the curve {(30, 0.02), (60, 0.025)}, tenor 60. -/
theorem claim_C10_witness :
    curve2.check_tenor 60 = true ∧
    ((curve2.bump_tenor 60 EPS).get_tenors = curve2.get_tenors ∧
    ((curve2.bump_tenor 60 EPS).unbump_tenor 60 EPS).get_tenors =
      curve2.get_tenors ∧
    (curve2.bump_curve EPS).get_tenors = curve2.get_tenors ∧
    ((curve2.bump_curve EPS).unbump_curve EPS).get_tenors =
      curve2.get_tenors ∧
    (∀ t : Int, (curve2.bump_tenor 60 EPS).check_tenor t =
      curve2.check_tenor t) ∧
    (∀ t : Int, (curve2.bump_curve EPS).check_tenor t =
      curve2.check_tenor t)) :=
  ⟨by decide, claim_C10_bumps_preserve_tenors curve2 60 EPS (by decide)⟩

/-- C7: the book value is the sum over all stored (date, notional) pairs of
notional times the discount factor at the effective tenor date - delta. -/
theorem claim_C7_book_value_sum (dn : DateNotionals)
    (discount_fn : Int → ℝ) :
    dn.get_book_value discount_fn =
      (dn.date_notionals.map
        (fun p => (p.2 : ℝ) * discount_fn (p.1 - dn.delta))).sum := by
  unfold DateNotionals.get_book_value
  rw [foldl_add_eq_sum, zero_add]

/-! ## Ledger aggregation -/

lemma any_eq_false_of_keys {l : List (Int × Int)} {date : Int}
    (h : ∀ p ∈ l, p.1 ≠ date) :
    l.any (fun p => p.1 == date) = false := by
  rw [List.any_eq_false]
  intro p hp
  simpa using h p hp

/-- C8: add_trade accumulates rather than overwrites: adding two trades on
a fresh maturity date with notionals n1 and n2 leaves exactly one entry for
that date, reported once by get_maturities, with aggregated notional
n1 + n2. -/
theorem claim_C8_add_trade_accumulates (dn : DateNotionals)
    (date n1 n2 : Int) (h : ∀ p ∈ dn.date_notionals, p.1 ≠ date) :
    (((dn.add_trade date n1).add_trade date n2).get_maturities.count date
        = 1) ∧
    ((dn.add_trade date n1).add_trade date n2).notionalAt date =
      some (n1 + n2) := by
  have h1 : dn.add_trade date n1 =
      { dn with date_notionals := dn.date_notionals ++ [(date, n1)] } := by
    unfold DateNotionals.add_trade
    rw [any_eq_false_of_keys h]
    simp
  have hany2 : (dn.date_notionals ++ [(date, n1)]).any
      (fun p => p.1 == date) = true := by
    rw [List.any_append]
    simp
  have hmap : (dn.date_notionals ++ [(date, n1)]).map
      (fun p => if p.1 = date then (p.1, p.2 + n2) else p) =
      dn.date_notionals ++ [(date, n1 + n2)] := by
    rw [List.map_append]
    rw [list_map_eq_self_of_mem (fun p hp => by simp [h p hp])]
    simp
  have h2 : (dn.add_trade date n1).add_trade date n2 =
      { dn with date_notionals :=
          dn.date_notionals ++ [(date, n1 + n2)] } := by
    rw [h1]
    unfold DateNotionals.add_trade
    simp only [hany2, if_true]
    rw [hmap]
  rw [h2]
  constructor
  · unfold DateNotionals.get_maturities
    rw [List.map_append, List.count_append]
    have : (dn.date_notionals.map Prod.fst).count date = 0 := by
      rw [List.count_eq_zero]
      intro hmem
      obtain ⟨p, hp, hfst⟩ := List.mem_map.mp hmem
      exact h p hp hfst
    rw [this]
    simp [List.count_cons]
  · unfold DateNotionals.notionalAt
    rw [list_find_skip (fun p hp => by simpa using h p hp)]
    simp [List.find?]

/-- Witness for C8: the spec example, trades of 100 and 200 on one date. -/
theorem claim_C8_witness :
    (∀ p ∈ (⟨[], 0⟩ : DateNotionals).date_notionals, p.1 ≠ 5) ∧
    ((((⟨[], 0⟩ : DateNotionals).add_trade 5 100).add_trade
        5 200).get_maturities.count 5 = 1 ∧
      (((⟨[], 0⟩ : DateNotionals).add_trade 5 100).add_trade
        5 200).notionalAt 5 = some 300) :=
  ⟨by decide, claim_C8_add_trade_accumulates ⟨[], 0⟩ 5 100 200 (by decide)⟩

/-! ## Interpolation: the source walk versus the specification rules -/

lemma sortedRates_cons_cons {p q : Int × ℚ} {l : List (Int × ℚ)}
    (h : sortedRates (p :: q :: l) = true) :
    p.1 < q.1 ∧ sortedRates (q :: l) = true := by
  simpa [sortedRates] using h

lemma effExp_flat (tl : Int) (rl : ℚ) (t : Int) :
    effExp tl rl (tl + 1) rl t = -rl * (t : ℚ) / 360 := by
  unfold effExp linInterp
  have h1 : (((tl + 1 : Int) : ℚ) - (tl : ℚ)) = 1 := by push_cast; ring
  rw [h1, div_one]
  push_cast
  ring

lemma linInterp_left (tl : Int) (rl : ℚ) (tr : Int) (rr : ℚ)
    (h : tl < tr) : linInterp tl rl tr rr tl = rl := by
  unfold linInterp
  have hne : ((tr : ℚ) - (tl : ℚ)) ≠ 0 :=
    sub_ne_zero.mpr (by exact_mod_cast h.ne')
  field_simp

lemma linInterp_right (tl : Int) (rl : ℚ) (tr : Int) (rr : ℚ)
    (h : tl < tr) : linInterp tl rl tr rr tr = rr := by
  unfold linInterp
  have hne : ((tr : ℚ) - (tl : ℚ)) ≠ 0 :=
    sub_ne_zero.mpr (by exact_mod_cast h.ne')
  field_simp

lemma dfExpAux_at_left (rest : List (Int × ℚ)) (tl : Int) (rl : ℚ)
    (h : sortedRates ((tl, rl) :: rest) = true) :
    dfExpAux tl rl rest tl = -rl * (tl : ℚ) / 360 := by
  cases rest with
  | nil => exact effExp_flat tl rl tl
  | cons q rest =>
      obtain ⟨hlt, _⟩ := sortedRates_cons_cons h
      obtain ⟨tr, rr⟩ := q
      unfold dfExpAux
      rw [if_pos hlt]
      unfold effExp
      rw [linInterp_left tl rl tr rr hlt]

lemma keys_le_getLast? : ∀ (l : List (Int × ℚ)), sortedRates l = true →
    ∀ p ∈ l, ∀ q : Int × ℚ, l.getLast? = some q → p.1 ≤ q.1 := by
  intro l
  induction l with
  | nil => intro _ p hp; exact absurd hp (List.not_mem_nil p)
  | cons a l ih =>
      intro hs p hp q hq
      cases l with
      | nil =>
          rw [show ([a] : List (Int × ℚ)).getLast? = some a from rfl] at hq
          obtain rfl := Option.some.inj hq
          rcases List.mem_singleton.mp hp with rfl
          exact le_refl _
      | cons b l =>
          obtain ⟨hab, hs2⟩ := sortedRates_cons_cons hs
          rw [List.getLast?_cons_cons] at hq
          rcases List.mem_cons.mp hp with rfl | hp2
          · exact le_of_lt (lt_of_lt_of_le hab
              (ih hs2 b (List.mem_cons_self b l) q hq))
          · exact ih hs2 p hp2 q hq

lemma dfExpAux_flat : ∀ (rest : List (Int × ℚ)) (tl : Int) (rl : ℚ)
    (t : Int), (∀ p ∈ rest, p.1 ≤ t) →
    ∀ q : Int × ℚ, ((tl, rl) :: rest).getLast? = some q →
    dfExpAux tl rl rest t = -q.2 * (t : ℚ) / 360 := by
  intro rest
  induction rest with
  | nil =>
      intro tl rl t _ q hq
      rw [show ([(tl, rl)] : List (Int × ℚ)).getLast? = some (tl, rl) from
        rfl] at hq
      obtain rfl := Option.some.inj hq
      exact effExp_flat tl rl t
  | cons b rest ih =>
      intro tl rl t hle q hq
      obtain ⟨tr, rr⟩ := b
      rw [List.getLast?_cons_cons] at hq
      unfold dfExpAux
      rw [if_neg (not_lt.mpr (hle (tr, rr) (List.mem_cons_self _ _)))]
      exact ih tr rr t (fun p hp => hle p (List.mem_cons_of_mem _ hp)) q hq

lemma dfExpAux_interior : ∀ (rest : List (Int × ℚ)) (tl : Int) (rl : ℚ)
    (t : Int), sortedRates ((tl, rl) :: rest) = true → tl ≤ t →
    (∀ q : Int × ℚ, ((tl, rl) :: rest).getLast? = some q → t < q.1) →
    ∃ pq : (Int × ℚ) × (Int × ℚ),
      (((tl, rl) :: rest).zip (((tl, rl) :: rest).tail)).find?
        (fun pq => decide (pq.1.1 ≤ t) && decide (t ≤ pq.2.1)) = some pq ∧
      dfExpAux tl rl rest t = effExp pq.1.1 pq.1.2 pq.2.1 pq.2.2 t := by
  intro rest
  induction rest with
  | nil =>
      intro tl rl t _ hle hlast
      exact absurd (hlast (tl, rl) rfl) (not_lt.mpr hle)
  | cons b rest ih =>
      intro tl rl t hs hle hlast
      obtain ⟨tr, rr⟩ := b
      obtain ⟨hlt, hs2⟩ := sortedRates_cons_cons hs
      simp only [List.tail_cons, List.zip_cons_cons, List.find?]
      by_cases h2 : t ≤ tr
      · have hfind : (decide (tl ≤ t) && decide (t ≤ tr)) = true := by
          simp [hle, h2]
        rw [hfind]
        refine ⟨((tl, rl), (tr, rr)), rfl, ?_⟩
        by_cases h3 : t < tr
        · unfold dfExpAux
          rw [if_pos h3]
        · have heq : t = tr := le_antisymm h2 (not_lt.mp h3)
          unfold dfExpAux
          rw [if_neg h3]
          subst heq
          rw [dfExpAux_at_left rest t rr hs2]
          unfold effExp
          rw [linInterp_right tl rl t rr hlt]
      · have hfind : (decide (tl ≤ t) && decide (t ≤ tr)) = false := by
          simp [h2]
        rw [hfind]
        have htr : tr ≤ t := le_of_lt (not_le.mp h2)
        obtain ⟨pq, hpq1, hpq2⟩ := ih tr rr t hs2 htr
          (fun q hq => hlast q (by rw [List.getLast?_cons_cons]; exact hq))
        refine ⟨pq, ?_, ?_⟩
        · exact hpq1
        · unfold dfExpAux
          rw [if_neg (not_lt.mpr htr)]
          exact hpq2

lemma getLast?_cons_some : ∀ (a : Int × ℚ) (l : List (Int × ℚ)),
    ∃ q : Int × ℚ, (a :: l).getLast? = some q := by
  intro a l
  induction l generalizing a with
  | nil => exact ⟨a, rfl⟩
  | cons b l ih =>
      rw [List.getLast?_cons_cons]
      exact ih b

/-- The effective rate as described by the words of the specification
(refinement definition, deliberately written from the spec, to be compared
with the source embedding `dfExponent?`): for `t` at or below the smallest
stored tenor the left endpoint is pinned to (tenor 0, rate 0); for `t` at
or beyond the largest stored tenor the last rate is held flat (constant
extrapolation); otherwise the two adjacent stored points bracketing `t` are
interpolated linearly. -/
def spec_r_eff (c : InterestRates) (t : Int) : ℚ :=
  match c.rates.head?, c.rates.getLast? with
  | some (t0, r0), some (tN, rN) =>
      if t ≤ t0 then linInterp 0 0 t0 r0 t
      else if tN ≤ t then rN
      else
        match (c.rates.zip c.rates.tail).find?
            (fun pq => decide (pq.1.1 ≤ t) && decide (t ≤ pq.2.1)) with
        | some (p, q) => linInterp p.1 p.2 q.1 q.2 t
        | none => 0
  | _, _ => 0

lemma dfExponent_eq_spec (c : InterestRates) (t : Int) (hs : c.Sorted)
    (hne : c.rates ≠ []) (ht : 0 ≤ t) :
    c.dfExponent? t = some (-(spec_r_eff c t) * (t : ℚ) / 360) := by
  obtain ⟨l⟩ := c
  cases l with
  | nil => exact absurd rfl hne
  | cons hd rest =>
      obtain ⟨t0, r0⟩ := hd
      have hs' : sortedRates ((t0, r0) :: rest) = true := hs
      obtain ⟨qN, hqN⟩ := getLast?_cons_some (t0, r0) rest
      obtain ⟨tN, rN⟩ := qN
      simp only [InterestRates.dfExponent?, spec_r_eff, List.head?_cons, hqN]
      rcases le_or_lt t t0 with hle | hgt
      · rw [if_pos hle]
        by_cases hlt : t < t0
        · rw [if_pos hlt]
          rfl
        · rw [if_neg hlt]
          have heq : t = t0 := le_antisymm hle (not_lt.mp hlt)
          subst heq
          rw [dfExpAux_at_left rest t r0 hs']
          by_cases ht0 : t = 0
          · subst ht0
            simp
          · have hpos : (0 : Int) < t := lt_of_le_of_ne ht (Ne.symm ht0)
            rw [show linInterp 0 0 t r0 t = r0 from
              linInterp_right 0 0 t r0 hpos]
      · rw [if_neg (not_le.mpr hgt), if_neg (not_lt.mpr (le_of_lt hgt))]
        by_cases hflat : tN ≤ t
        · rw [if_pos hflat]
          have hall : ∀ p ∈ rest, p.1 ≤ t := by
            intro p hp
            exact le_trans
              (keys_le_getLast? ((t0, r0) :: rest) hs' p
                (List.mem_cons_of_mem _ hp) (tN, rN) hqN) hflat
          rw [dfExpAux_flat rest t0 r0 t hall (tN, rN) hqN]
        · rw [if_neg hflat]
          obtain ⟨pq, hpq1, hpq2⟩ := dfExpAux_interior rest t0 r0 t hs'
            (le_of_lt hgt)
            (fun q hq => by
              rw [hqN] at hq
              obtain rfl := Option.some.inj hq
              exact not_le.mp hflat)
          obtain ⟨⟨pa, pb⟩, ⟨qa, qb⟩⟩ := pq
          rw [hpq2, hpq1]
          rfl

/-- C1: for every well-formed curve with at least one stored rate point and
every tenor t at least 0, get_discount_factor(t) returns
exp(-r_eff * t / 360) where r_eff follows the linear spot-rate
interpolation over the bracketing pair chosen by the boundary rules of the
specification (pinning to rate 0 at tenor 0 below the curve, flat
extrapolation beyond it, adjacent bracketing points in between). -/
theorem claim_C1_discount_factor_matches_spec (c : InterestRates) (t : Int)
    (hs : c.Sorted) (hne : c.rates ≠ []) (ht : 0 ≤ t) :
    c.get_discount_factor? t =
      some (Real.exp ((-(spec_r_eff c t) * (t : ℚ) / 360 : ℚ) : ℝ)) := by
  unfold InterestRates.get_discount_factor?
  rw [dfExponent_eq_spec c t hs hne ht]
  rfl

/-- Witness for C1 at the spec example curve {(30, 0.02), (60, 0.025)} and
tenor 45. -/
theorem claim_C1_witness :
    curve2.Sorted ∧ curve2.rates ≠ [] ∧ (0 : Int) ≤ 45 ∧
    curve2.get_discount_factor? 45 =
      some (Real.exp ((-(spec_r_eff curve2 45) * ((45 : Int) : ℚ) / 360 :
        ℚ) : ℝ)) :=
  ⟨by rfl, by decide, by decide,
    claim_C1_discount_factor_matches_spec curve2 45 (by rfl) (by decide)
      (by decide)⟩

/-! ## Effect of a parallel bump on the discount-factor exponent -/

lemma linInterp_add (tl : Int) (rl : ℚ) (tr : Int) (rr : ℚ) (t : Int)
    (b : ℚ) (h : tl < tr) :
    linInterp tl (rl + b) tr (rr + b) t = linInterp tl rl tr rr t + b := by
  unfold linInterp
  have hne : ((tr : ℚ) - (tl : ℚ)) ≠ 0 :=
    sub_ne_zero.mpr (by exact_mod_cast h.ne')
  field_simp
  ring

lemma effExp_add (tl : Int) (rl : ℚ) (tr : Int) (rr : ℚ) (t : Int) (b : ℚ)
    (h : tl < tr) :
    effExp tl (rl + b) tr (rr + b) t =
      effExp tl rl tr rr t - b * (t : ℚ) / 360 := by
  unfold effExp
  rw [linInterp_add tl rl tr rr t b h]
  ring

lemma dfExpAux_bump (b : ℚ) : ∀ (rest : List (Int × ℚ)) (tl : Int) (rl : ℚ)
    (t : Int), sortedRates ((tl, rl) :: rest) = true →
    dfExpAux tl (rl + b) (rest.map (fun p => (p.1, p.2 + b))) t =
      dfExpAux tl rl rest t - b * (t : ℚ) / 360 := by
  intro rest
  induction rest with
  | nil =>
      intro tl rl t _
      simp only [List.map_nil]
      unfold dfExpAux
      rw [effExp_flat, effExp_flat]
      ring
  | cons p rest ih =>
      intro tl rl t hs
      obtain ⟨tr, rr⟩ := p
      obtain ⟨hlt, hs2⟩ := sortedRates_cons_cons hs
      simp only [List.map_cons]
      unfold dfExpAux
      by_cases h3 : t < tr
      · rw [if_pos h3, if_pos h3]
        exact effExp_add tl rl tr rr t b hlt
      · rw [if_neg h3, if_neg h3]
        exact ih tr rr t hs2

lemma dfExponent_bump (c : InterestRates) (t : Int) (hs : c.Sorted)
    (hne : c.rates ≠ []) (ht : 0 ≤ t) :
    ∃ E C : ℚ, c.dfExponent? t = some E ∧ 0 ≤ C ∧ (0 < t → 0 < C) ∧
      ∀ b : ℚ, (c.bump_curve b).dfExponent? t = some (E - b * C) := by
  obtain ⟨l⟩ := c
  cases l with
  | nil => exact absurd rfl hne
  | cons hd rest =>
      obtain ⟨t0, r0⟩ := hd
      have hs' : sortedRates ((t0, r0) :: rest) = true := hs
      by_cases hlt : t < t0
      · refine ⟨effExp 0 0 t0 r0 t,
          (t : ℚ) * (t : ℚ) / ((t0 : ℚ) * 360), ?_, ?_, ?_, ?_⟩
        · simp only [InterestRates.dfExponent?, if_pos hlt]
        · have ht0 : (0 : ℚ) < (t0 : ℚ) := by
            exact_mod_cast lt_of_le_of_lt ht hlt
          exact div_nonneg (mul_self_nonneg _) (by positivity)
        · intro htpos
          have ht0 : (0 : ℚ) < (t0 : ℚ) := by
            exact_mod_cast lt_of_le_of_lt ht hlt
          have htq : (0 : ℚ) < (t : ℚ) := by exact_mod_cast htpos
          exact div_pos (mul_pos htq htq) (by positivity)
        · intro b
          simp only [InterestRates.bump_curve, List.map_cons,
            InterestRates.dfExponent?, if_pos hlt]
          congr 1
          unfold effExp linInterp
          have ht0 : ((t0 : ℚ) - ((0 : Int) : ℚ)) ≠ 0 := by
            have : (0 : ℚ) < (t0 : ℚ) := by
              exact_mod_cast lt_of_le_of_lt ht hlt
            simp only [Int.cast_zero, sub_zero]
            exact ne_of_gt this
          field_simp
          ring
      · refine ⟨dfExpAux t0 r0 rest t, (t : ℚ) / 360, ?_, ?_, ?_, ?_⟩
        · simp only [InterestRates.dfExponent?, if_neg hlt]
        · have : (0 : ℚ) ≤ (t : ℚ) := by exact_mod_cast ht
          positivity
        · intro htpos
          have : (0 : ℚ) < (t : ℚ) := by exact_mod_cast htpos
          positivity
        · intro b
          simp only [InterestRates.bump_curve, List.map_cons,
            InterestRates.dfExponent?, if_neg hlt]
          rw [dfExpAux_bump b rest t0 r0 t hs']
          congr 1
          ring

lemma EPS_pos : (0 : ℚ) < EPS := by
  norm_num [EPS]

lemma dfExponent_some (c : InterestRates) (hne : c.rates ≠ []) (t : Int) :
    ∃ q : ℚ, c.dfExponent? t = some q := by
  obtain ⟨l⟩ := c
  cases l with
  | nil => exact absurd rfl hne
  | cons hd rest =>
      obtain ⟨t0, r0⟩ := hd
      exact ⟨_, rfl⟩

lemma check_tenor_ne_nil {c : InterestRates} {tenor : Int}
    (h : c.check_tenor tenor = true) : c.rates ≠ [] := by
  intro hn
  unfold InterestRates.check_tenor at h
  rw [hn] at h
  simp at h

lemma bump_tenor_ne_nil (c : InterestRates) (tenor : Int) (b : ℚ)
    (hne : c.rates ≠ []) : (c.bump_tenor tenor b).rates ≠ [] := by
  intro h
  exact hne (List.map_eq_nil_iff.mp h)

lemma bump_curve_ne_nil (c : InterestRates) (b : ℚ)
    (hne : c.rates ≠ []) : (c.bump_curve b).rates ≠ [] := by
  intro h
  exact hne (List.map_eq_nil_iff.mp h)

lemma sumPV_total (c : InterestRates) (hne : c.rates ≠ []) (delta : Int) :
    ∀ pairs : List (Int × Int),
      ∃ v : ℝ, sumPV? delta c.get_discount_factor? pairs = some v := by
  intro pairs
  induction pairs with
  | nil => exact ⟨0, rfl⟩
  | cons p ps ih =>
      obtain ⟨q, hq⟩ := dfExponent_some c hne (p.1 - delta)
      have hdf : c.get_discount_factor? (p.1 - delta) =
          some (Real.exp (q : ℝ)) := by
        unfold InterestRates.get_discount_factor?
        rw [hq]
        rfl
      obtain ⟨v, hv⟩ := ih
      exact ⟨(p.2 : ℝ) * Real.exp (q : ℝ) + v, by
        simp only [sumPV?, hdf, hv]⟩

lemma sumPV_bump_compare (c : InterestRates) (hs : c.Sorted)
    (hne : c.rates ≠ []) (delta : Int) :
    ∀ pairs : List (Int × Int),
      (∀ p ∈ pairs, 0 < p.2 ∧ 0 ≤ p.1 - delta) →
      ∃ vu vd : ℝ,
        sumPV? delta (c.bump_curve EPS).get_discount_factor? pairs =
          some vu ∧
        sumPV? delta (c.bump_curve (-EPS)).get_discount_factor? pairs =
          some vd ∧
        vu ≤ vd ∧ ((∃ p ∈ pairs, 0 < p.1 - delta) → vu < vd) := by
  intro pairs
  induction pairs with
  | nil =>
      intro _
      exact ⟨0, 0, rfl, rfl, le_refl 0, by simp⟩
  | cons p ps ih =>
      intro hall
      obtain ⟨hnpos, htnn⟩ := hall p (List.mem_cons_self p ps)
      obtain ⟨vu, vd, hvu, hvd, hle, hstrict⟩ :=
        ih (fun q hq => hall q (List.mem_cons_of_mem p hq))
      obtain ⟨E, C, _hE, hC0, hCpos, hEb⟩ :=
        dfExponent_bump c (p.1 - delta) hs hne htnn
      have hdfu : (c.bump_curve EPS).get_discount_factor? (p.1 - delta) =
          some (Real.exp ((E - EPS * C : ℚ) : ℝ)) := by
        unfold InterestRates.get_discount_factor?
        rw [hEb EPS]
        rfl
      have hdfd : (c.bump_curve (-EPS)).get_discount_factor? (p.1 - delta) =
          some (Real.exp ((E + EPS * C : ℚ) : ℝ)) := by
        unfold InterestRates.get_discount_factor?
        rw [hEb (-EPS), show (E - -EPS * C : ℚ) = E + EPS * C from by ring]
        rfl
      have hnposR : (0 : ℝ) < (p.2 : ℝ) := by exact_mod_cast hnpos
      have hqle : (E - EPS * C : ℚ) ≤ E + EPS * C := by
        nlinarith [mul_nonneg (le_of_lt EPS_pos) hC0]
      have hexple : Real.exp ((E - EPS * C : ℚ) : ℝ) ≤
          Real.exp ((E + EPS * C : ℚ) : ℝ) :=
        Real.exp_le_exp.mpr (by exact_mod_cast hqle)
      refine ⟨(p.2 : ℝ) * Real.exp ((E - EPS * C : ℚ) : ℝ) + vu,
        (p.2 : ℝ) * Real.exp ((E + EPS * C : ℚ) : ℝ) + vd, ?_, ?_, ?_, ?_⟩
      · simp only [sumPV?, hdfu, hvu]
      · simp only [sumPV?, hdfd, hvd]
      · exact add_le_add
          (mul_le_mul_of_nonneg_left hexple (le_of_lt hnposR)) hle
      · rintro ⟨q, hq, hqpos⟩
        rcases List.mem_cons.mp hq with rfl | hq2
        · have hCp : (0 : ℚ) < C := hCpos hqpos
          have hqlt : (E - EPS * C : ℚ) < E + EPS * C := by
            nlinarith [mul_pos EPS_pos hCp]
          have hexplt : Real.exp ((E - EPS * C : ℚ) : ℝ) <
              Real.exp ((E + EPS * C : ℚ) : ℝ) :=
            Real.exp_lt_exp.mpr (by exact_mod_cast hqlt)
          exact add_lt_add_of_lt_of_le
            (mul_lt_mul_of_pos_left hexplt hnposR) hle
        · exact add_lt_add_of_le_of_lt
            (mul_le_mul_of_nonneg_left hexple (le_of_lt hnposR))
            (hstrict ⟨q, hq2, hqpos⟩)

lemma get_DV01_curve_pos (s : RiskManagementSystem) (ccy : Currency)
    (rates : InterestRates) (trades : DateNotionals) (fx : ℚ)
    (hr : s.currency_rates ccy = some rates)
    (hs : rates.Sorted) (hne : rates.rates ≠ [])
    (hn : s.currency_notionals ccy = some trades)
    (hfx : s.get_fx_spot (Currency.USD, ccy) = some fx) (hfxpos : 0 < fx)
    (hpos : ∀ p ∈ trades.date_notionals, 0 < p.2 ∧ 0 ≤ p.1 - trades.delta)
    (hsome : ∃ p ∈ trades.date_notionals, 0 < p.1 - trades.delta) :
    ∃ d : ℝ, s.get_DV01_curve ccy = QRes.ok d ∧ 0 < d := by
  have hcr : s.check_rates ccy = true := by
    simp [RiskManagementSystem.check_rates, hr]
  cases hu : s.currency_spot Currency.USD with
  | none => simp [RiskManagementSystem.get_fx_spot, hu] at hfx
  | some u =>
  cases hcs : s.currency_spot ccy with
  | none => simp [RiskManagementSystem.get_fx_spot, hu, hcs] at hfx
  | some cs =>
  have hcf : s.check_fx ccy = true := by
    simp [RiskManagementSystem.check_fx, hcs]
  obtain ⟨vu, vd, hvu, hvd, hle, hstrict⟩ :=
    sumPV_bump_compare rates hs hne trades.delta trades.date_notionals hpos
  have hvlt : vu < vd := hstrict hsome
  have hfxR : (0 : ℝ) < (fx : ℝ) := by exact_mod_cast hfxpos
  refine ⟨(fx : ℝ) * -(vu - vd) / 2, ?_, ?_⟩
  · simp only [RiskManagementSystem.get_DV01_curve, hcr, hcf, Bool.and_self,
      Bool.not_true, Bool.false_eq_true, if_false, hr, hn,
      InterestRates.bump_unbump_curve, hfx, hvu, hvd]
  · have h1 : (0 : ℝ) < -(vu - vd) := by linarith
    exact div_pos (mul_pos hfxR h1) two_pos

/-- Single-point EUR curve with rate 0.02 at tenor 30. -/
def eurCurve1 : InterestRates :=
  ⟨[(30, 1 / 50)]⟩

/-- EUR ledger holding one trade of notional 100 maturing at day 30,
valuation delta 0. -/
def eurLedger1 : DateNotionals :=
  ⟨[(30, 100)], 0⟩

/-- Concrete engine state: EUR curve, EUR ledger, EUR and USD spots of 1. -/
def stateC5 : RiskManagementSystem where
  currency_rates := fun c => if c = Currency.EUR then some eurCurve1 else none
  currency_spot := fun c =>
    if c = Currency.USD then some ⟨1⟩
    else if c = Currency.EUR then some ⟨1⟩ else none
  currency_notionals := fun c =>
    if c = Currency.EUR then some eurLedger1 else none
  delta := 42940

/-- C5 counterexample: a currency with strictly positive notionals and a
positive curve rate for which the parallel get_DV01 is NOT negative — the
source reports the value loss of an upward shift as a positive number
(`-(v(+EPS) - v(-EPS))` with `v(+EPS) < v(-EPS)` is positive). -/
theorem claim_C5_counterexample :
    ¬ (stateC5.get_DV01_curve Currency.EUR).isNeg := by
  obtain ⟨d, hd, hdpos⟩ := get_DV01_curve_pos stateC5 Currency.EUR eurCurve1
    eurLedger1 1 rfl (by rfl) (List.cons_ne_nil _ _) rfl
    (by norm_num [stateC5, RiskManagementSystem.get_fx_spot, FXSpot.div])
    (by norm_num) (by decide) (by decide)
  rw [hd]
  simp only [QRes.isNeg]
  linarith

/-- C5 corrected: for every currency whose ledger holds strictly positive
notionals at non-negative effective tenors with at least one strictly
positive effective tenor, whose well-formed curve has a (positive) rate,
and whose USD-conversion cross rate is positive, the parallel-shift
get_DV01 returns a strictly POSITIVE number: the code reports the value
loss from an upward rate shift with positive sign, not negative. -/
theorem claim_C5_amended_parallel_dv01_positive (s : RiskManagementSystem)
    (ccy : Currency) (rates : InterestRates) (trades : DateNotionals)
    (fx : ℚ) (hr : s.currency_rates ccy = some rates)
    (hs : rates.Sorted) (hne : rates.rates ≠ [])
    (hrate : ∃ p ∈ rates.rates, 0 < p.2)
    (hn : s.currency_notionals ccy = some trades)
    (hfx : s.get_fx_spot (Currency.USD, ccy) = some fx) (hfxpos : 0 < fx)
    (hpos : ∀ p ∈ trades.date_notionals, 0 < p.2 ∧ 0 ≤ p.1 - trades.delta)
    (hsome : ∃ p ∈ trades.date_notionals, 0 < p.1 - trades.delta) :
    ∃ d : ℝ, s.get_DV01_curve ccy = QRes.ok d ∧ 0 < d :=
  get_DV01_curve_pos s ccy rates trades fx hr hs hne hn hfx hfxpos hpos hsome

/-- Witness for the corrected C5 at the concrete state. -/
theorem claim_C5_witness :
    stateC5.currency_rates Currency.EUR = some eurCurve1 ∧
    eurCurve1.Sorted ∧ eurCurve1.rates ≠ [] ∧
    (∃ p ∈ eurCurve1.rates, 0 < p.2) ∧
    stateC5.currency_notionals Currency.EUR = some eurLedger1 ∧
    stateC5.get_fx_spot (Currency.USD, Currency.EUR) = some 1 ∧
    (0 : ℚ) < 1 ∧
    (∀ p ∈ eurLedger1.date_notionals,
      0 < p.2 ∧ 0 ≤ p.1 - eurLedger1.delta) ∧
    (∃ p ∈ eurLedger1.date_notionals, 0 < p.1 - eurLedger1.delta) ∧
    ∃ d : ℝ, stateC5.get_DV01_curve Currency.EUR = QRes.ok d ∧ 0 < d :=
  ⟨rfl, by rfl, List.cons_ne_nil _ _,
    ⟨(30, 1 / 50), List.mem_singleton.mpr rfl, by norm_num⟩, rfl,
    by norm_num [stateC5, RiskManagementSystem.get_fx_spot, FXSpot.div],
    by norm_num, by decide, by decide,
    claim_C5_amended_parallel_dv01_positive stateC5 Currency.EUR eurCurve1
      eurLedger1 1 rfl (by rfl) (List.cons_ne_nil _ _)
      ⟨(30, 1 / 50), List.mem_singleton.mpr rfl, by norm_num⟩ rfl
      (by norm_num [stateC5, RiskManagementSystem.get_fx_spot, FXSpot.div])
      (by norm_num) (by decide) (by decide)⟩

/-- C3: under the preconditions (curve with an exact rate at the tenor,
spot entries for the currency and for USD, a ledger), get_DV01 returns
`spot(USD, ccy) * -(value(+EPS) - value(-EPS)) / 2`, where value(b) is the
portfolio book value computed with the discount function of the curve
bumped by b from its unbumped state, for the single-tenor bump and for the
simultaneous whole-curve bump respectively; and every bump/release cycle
restores the curve exactly, so the second valuation sees the original
curve. -/
theorem claim_C3_dv01_formula (s : RiskManagementSystem) (ccy : Currency)
    (tenor : Int) (rates : InterestRates) (trades : DateNotionals) (fx : ℚ)
    (hr : s.currency_rates ccy = some rates)
    (ht : rates.check_tenor tenor = true)
    (hn : s.currency_notionals ccy = some trades)
    (hfx : s.get_fx_spot (Currency.USD, ccy) = some fx) :
    (∃ vu vd : ℝ,
      sumPV? trades.delta (rates.bump_tenor tenor EPS).get_discount_factor?
        trades.date_notionals = some vu ∧
      sumPV? trades.delta
        (rates.bump_tenor tenor (-EPS)).get_discount_factor?
        trades.date_notionals = some vd ∧
      s.get_DV01_tenor ccy tenor = QRes.ok ((fx : ℝ) * -(vu - vd) / 2)) ∧
    (∃ vu vd : ℝ,
      sumPV? trades.delta (rates.bump_curve EPS).get_discount_factor?
        trades.date_notionals = some vu ∧
      sumPV? trades.delta (rates.bump_curve (-EPS)).get_discount_factor?
        trades.date_notionals = some vd ∧
      s.get_DV01_curve ccy = QRes.ok ((fx : ℝ) * -(vu - vd) / 2)) ∧
    (∀ b : ℚ, (rates.bump_tenor tenor b).unbump_tenor tenor b = rates ∧
      (rates.bump_curve b).unbump_curve b = rates) := by
  have hne := check_tenor_ne_nil ht
  have hcr : s.check_rates ccy = true := by
    simp [RiskManagementSystem.check_rates, hr]
  have hctr : s.check_tenor_rate ccy tenor = true := by
    simp [RiskManagementSystem.check_tenor_rate, hr, ht]
  cases hu : s.currency_spot Currency.USD with
  | none => simp [RiskManagementSystem.get_fx_spot, hu] at hfx
  | some u =>
  cases hcs : s.currency_spot ccy with
  | none => simp [RiskManagementSystem.get_fx_spot, hu, hcs] at hfx
  | some cs =>
  have hcf : s.check_fx ccy = true := by
    simp [RiskManagementSystem.check_fx, hcs]
  obtain ⟨vu1, hvu1⟩ := sumPV_total (rates.bump_tenor tenor EPS)
    (bump_tenor_ne_nil rates tenor EPS hne) trades.delta
    trades.date_notionals
  obtain ⟨vd1, hvd1⟩ := sumPV_total (rates.bump_tenor tenor (-EPS))
    (bump_tenor_ne_nil rates tenor (-EPS) hne) trades.delta
    trades.date_notionals
  obtain ⟨vu2, hvu2⟩ := sumPV_total (rates.bump_curve EPS)
    (bump_curve_ne_nil rates EPS hne) trades.delta trades.date_notionals
  obtain ⟨vd2, hvd2⟩ := sumPV_total (rates.bump_curve (-EPS))
    (bump_curve_ne_nil rates (-EPS) hne) trades.delta trades.date_notionals
  refine ⟨⟨vu1, vd1, hvu1, hvd1, ?_⟩, ⟨vu2, vd2, hvu2, hvd2, ?_⟩,
    fun b => ⟨rates.bump_unbump_tenor tenor b,
      rates.bump_unbump_curve b⟩⟩
  · simp only [RiskManagementSystem.get_DV01_tenor, hctr, hcf,
      Bool.and_self, Bool.not_true, Bool.false_eq_true, if_false, hr, hn,
      InterestRates.bump_unbump_tenor, hfx, hvu1, hvd1]
  · simp only [RiskManagementSystem.get_DV01_curve, hcr, hcf,
      Bool.and_self, Bool.not_true, Bool.false_eq_true, if_false, hr, hn,
      InterestRates.bump_unbump_curve, hfx, hvu2, hvd2]

/-- Witness for C3 at the concrete state (EUR curve, ledger, spots). -/
theorem claim_C3_witness :
    stateC5.currency_rates Currency.EUR = some eurCurve1 ∧
    eurCurve1.check_tenor 30 = true ∧
    stateC5.currency_notionals Currency.EUR = some eurLedger1 ∧
    stateC5.get_fx_spot (Currency.USD, Currency.EUR) = some 1 ∧
    ((∃ vu vd : ℝ,
      sumPV? eurLedger1.delta
        (eurCurve1.bump_tenor 30 EPS).get_discount_factor?
        eurLedger1.date_notionals = some vu ∧
      sumPV? eurLedger1.delta
        (eurCurve1.bump_tenor 30 (-EPS)).get_discount_factor?
        eurLedger1.date_notionals = some vd ∧
      stateC5.get_DV01_tenor Currency.EUR 30 =
        QRes.ok (((1 : ℚ) : ℝ) * -(vu - vd) / 2)) ∧
    (∃ vu vd : ℝ,
      sumPV? eurLedger1.delta
        (eurCurve1.bump_curve EPS).get_discount_factor?
        eurLedger1.date_notionals = some vu ∧
      sumPV? eurLedger1.delta
        (eurCurve1.bump_curve (-EPS)).get_discount_factor?
        eurLedger1.date_notionals = some vd ∧
      stateC5.get_DV01_curve Currency.EUR =
        QRes.ok (((1 : ℚ) : ℝ) * -(vu - vd) / 2)) ∧
    (∀ b : ℚ, (eurCurve1.bump_tenor 30 b).unbump_tenor 30 b = eurCurve1 ∧
      (eurCurve1.bump_curve b).unbump_curve b = eurCurve1)) :=
  ⟨rfl, by decide, rfl,
    by norm_num [stateC5, RiskManagementSystem.get_fx_spot, FXSpot.div],
    claim_C3_dv01_formula stateC5 Currency.EUR 30 eurCurve1 eurLedger1 1
      rfl (by decide) rfl
      (by norm_num [stateC5, RiskManagementSystem.get_fx_spot,
        FXSpot.div])⟩

/-- Engine state with an EUR curve and spots but no EUR ledger. -/
def stateC4 : RiskManagementSystem where
  currency_rates := fun c => if c = Currency.EUR then some eurCurve1 else none
  currency_spot := fun c =>
    if c = Currency.USD then some ⟨1⟩
    else if c = Currency.EUR then some ⟨1⟩ else none
  currency_notionals := fun _ => none
  delta := 42940

/-- C4 (code bug): with a curve holding an exact rate at the tenor and a
spot entry but no portfolio ledger, get_DV01(ccy, tenor) reaches
`currency_notionals.at(ccy)` without a containment check and the lookup
throws: the query crashes instead of returning an explicit no-result. -/
theorem claim_C4_missing_ledger_crashes :
    stateC4.get_DV01_tenor Currency.EUR 30 = QRes.crash := by
  rfl

/-- Engine state whose EUR spot entry stores the value 0. -/
def stateC6 : RiskManagementSystem where
  currency_rates := fun _ => none
  currency_spot := fun c =>
    if c = Currency.USD then some ⟨1⟩
    else if c = Currency.EUR then some ⟨0⟩ else none
  currency_notionals := fun _ => none
  delta := 42940

/-- C6 counterexample: a currency whose stored spot is 0 has a spot entry,
yet get_fx_spot(ccy, ccy) = 0 / 0, which is not 1.0 (in IEEE arithmetic the
source computes NaN; in the exact model the total division yields 0). -/
theorem claim_C6_counterexample :
    stateC6.get_fx_spot (Currency.EUR, Currency.EUR) ≠ some 1 := by
  have h : stateC6.get_fx_spot (Currency.EUR, Currency.EUR) =
      some ((0 : ℚ) / 0) := rfl
  rw [h]
  simp

/-- C6 corrected: get_fx_spot(base, term) returns spot(base) / spot(term)
whenever both spot entries exist, and a missing spot entry for either
operand yields the empty optional, never a silent zero; the cross-rate
identity get_fx_spot(ccy, ccy) = 1.0 holds for every stored spot that is
nonzero (a stored spot of exactly 0 yields 0/0 instead). -/
theorem claim_C6_amended_fx_spot (s : RiskManagementSystem)
    (b t : Currency) (fb ft : FXSpot)
    (hb : s.currency_spot b = some fb) (ht : s.currency_spot t = some ft) :
    s.get_fx_spot (b, t) = some (fb.spot / ft.spot) ∧
    (∀ c fc, s.currency_spot c = some fc → fc.spot ≠ 0 →
      s.get_fx_spot (c, c) = some 1) ∧
    (∀ u v : Currency, s.currency_spot u = none ∨ s.currency_spot v = none →
      s.get_fx_spot (u, v) = none) := by
  refine ⟨?_, ?_, ?_⟩
  · simp [RiskManagementSystem.get_fx_spot, hb, ht, FXSpot.div]
  · intro c fc hc hnz
    simp [RiskManagementSystem.get_fx_spot, hc, FXSpot.div, div_self hnz]
  · intro u v huv
    rcases huv with hu | hv
    · simp [RiskManagementSystem.get_fx_spot, hu]
    · cases hsu : s.currency_spot u with
      | none => simp [RiskManagementSystem.get_fx_spot, hsu]
      | some x => simp [RiskManagementSystem.get_fx_spot, hsu, hv]

/-- Witness for the corrected C6 at a state with stored USD and EUR spots. -/
theorem claim_C6_witness :
    stateC6.currency_spot Currency.USD = some ⟨1⟩ ∧
    stateC6.currency_spot Currency.USD = some ⟨1⟩ ∧
    (stateC6.get_fx_spot (Currency.USD, Currency.USD) =
      some ((⟨1⟩ : FXSpot).spot / (⟨1⟩ : FXSpot).spot) ∧
    (∀ c fc, stateC6.currency_spot c = some fc → fc.spot ≠ 0 →
      stateC6.get_fx_spot (c, c) = some 1) ∧
    (∀ u v : Currency,
      stateC6.currency_spot u = none ∨ stateC6.currency_spot v = none →
      stateC6.get_fx_spot (u, v) = none)) :=
  ⟨rfl, rfl,
    claim_C6_amended_fx_spot stateC6 Currency.USD Currency.USD ⟨1⟩ ⟨1⟩
      rfl rfl⟩

/-! ## Reachable engine states have no empty curves -/

lemma insertRate_ne_nil (l : List (Int × ℚ)) (tenor : Int) (rate : ℚ) :
    insertRate l tenor rate ≠ [] := by
  cases l with
  | nil => simp [insertRate]
  | cons p ps =>
      unfold insertRate
      by_cases h1 : tenor < p.1
      · simp [h1]
      · by_cases h2 : tenor = p.1 <;> simp [h1, h2]

/-- C9: in every reachable engine state, every stored curve holds at least
one rate point (a curve is only created by a rate observation that
immediately inserts its rate), so the engine-level get_discount_factor can
never reach the empty-curve interpolation that would dereference past the
end of the rate map. -/
theorem claim_C9_no_empty_curves (s : RiskManagementSystem)
    (h : Reachable s) :
    (∀ ccy c, s.currency_rates ccy = some c → c.rates ≠ []) ∧
    (∀ ccy (tenor : Int),
      s.get_discount_factor ccy tenor ≠ QRes.crash) := by
  have hinv : ∀ ccy c, s.currency_rates ccy = some c → c.rates ≠ [] := by
    induction h with
    | init =>
        intro ccy c hc
        simp [initRMS] at hc
    | rate ccy0 tenor r _ ih =>
        intro ccy c hc
        unfold applyRate at hc
        by_cases hneg : tenor < 0
        · rw [if_pos hneg] at hc
          exact ih ccy c hc
        · rw [if_neg hneg] at hc
          simp only at hc
          by_cases heq : ccy = ccy0
          · rw [if_pos heq] at hc
            obtain rfl := Option.some.inj hc
            exact insertRate_ne_nil _ tenor r
          · rw [if_neg heq] at hc
            exact ih ccy c hc
    | fx ccy0 q _ ih =>
        intro ccy c hc
        exact ih ccy c hc
    | trade ccy0 date notional _ ih =>
        intro ccy c hc
        unfold applyTrade at hc
        split at hc
        · exact ih ccy c hc
        · exact ih ccy c hc
  refine ⟨hinv, ?_⟩
  intro ccy tenor
  unfold RiskManagementSystem.get_discount_factor
  by_cases hch : !(s.check_rates ccy && check_tenor_val tenor)
  · rw [if_pos hch]
    simp
  · rw [if_neg hch]
    cases hr : s.currency_rates ccy with
    | none => simp
    | some c =>
        obtain ⟨q, hq⟩ := dfExponent_some c (hinv ccy c hr) tenor
        simp [hq]

/-- Witness for C9: a state reached by one rate observation. -/
theorem claim_C9_witness :
    Reachable (applyRate initRMS Currency.EUR 30 (1 / 50)) ∧
    ((∀ ccy c,
      (applyRate initRMS Currency.EUR 30 (1 / 50)).currency_rates ccy =
        some c → c.rates ≠ []) ∧
    (∀ ccy (tenor : Int),
      (applyRate initRMS Currency.EUR 30 (1 / 50)).get_discount_factor ccy
        tenor ≠ QRes.crash)) :=
  ⟨Reachable.rate Currency.EUR 30 (1 / 50) Reachable.init,
    claim_C9_no_empty_curves (applyRate initRMS Currency.EUR 30 (1 / 50))
      (Reachable.rate Currency.EUR 30 (1 / 50) Reachable.init)⟩
